import Mathlib

/-!
Verification of the DMS angle conversion core (GeographicLib `DMS.hpp`).

The repository ships the class header: the enumerations, the inline
arithmetic overloads (`Decode(d, m, s)`, the precision-dispatching
`Encode` overload, and the two splitting overloads) are source code and
are embedded directly.  The bodies of the string decoder
(`Decode(string)`, `DecodeLatLon`, `DecodeAngle`, `DecodeAzimuth`) and of
the primary string `Encode` live in a companion `DMS.cpp` that is not in
the repository; those are modelled from the specification, as marked on
each definition.

Numbers are modelled with `ℚ` (the C++ `Math::real`).  All parsing is
done over `List Char` with purely natural-number arithmetic, so that the
decoder core is kernel-computable; rational values are assembled only in
the final step.
-/

namespace GeographicLib

namespace DMS

/-- Hemisphere indicator flag (`enum flag` in `DMS.hpp`). -/
inductive flag where
  | NONE
  | LATITUDE
  | LONGITUDE
  | AZIMUTH
  | NUMBER
deriving DecidableEq

/-- Trailing unit selector (`enum component` in `DMS.hpp`). -/
inductive component where
  | DEGREE
  | MINUTE
  | SECOND
deriving DecidableEq

/-- The apostrophe character (canonical minute marker). -/
def aposChar : Char := Char.ofNat 39

/-- The double-quote character (canonical second marker). -/
def quotChar : Char := Char.ofNat 34

/-- Whitespace for trimming. -/
def isSpaceChar (c : Char) : Bool :=
  c = ' ' || c = '\t' || c = '\n' || c = '\r'

/-- Numeric value of an ASCII digit character. -/
def digitVal (c : Char) : ℕ := c.toNat - 48

/-- ASCII decimal digit test. -/
def isDigitChar (c : Char) : Bool := 48 ≤ c.toNat && c.toNat ≤ 57

/-- Modelled from the spec: accepted degree glyphs (d, D, degree sign,
masculine ordinal indicator, superscript zero, ring above), modelled at
the Unicode code-point level. -/
def degreeMarks : List Char := ['d', 'D', '°', 'º', '⁰', '˚']

/-- Modelled from the spec: accepted minute glyphs (apostrophe, prime,
acute accent, right single quote). -/
def minuteMarks : List Char := [aposChar, '′', '´', '’']

/-- Modelled from the spec: accepted second glyphs (quotation mark,
double prime, right double quote). -/
def secondMarks : List Char := [quotChar, '″', '”']

/-- Modelled from the spec: collapse every recognized unit glyph to the
canonical one-character marker of its class. -/
def normChar (c : Char) : Char :=
  if c ∈ degreeMarks then 'd'
  else if c ∈ minuteMarks then aposChar
  else if c ∈ secondMarks then quotChar
  else c

/-- Modelled from the spec: two consecutive minute markers denote a
second marker. -/
def collapseMin : List Char → List Char
  | [] => []
  | [c] => [c]
  | c1 :: c2 :: rest =>
    if c1 = aposChar ∧ c2 = aposChar then quotChar :: collapseMin rest
    else c1 :: collapseMin (c2 :: rest)

/-- Hemisphere designator letter: implied sign (`true` = negative) and
indicator class. -/
def hemData (c : Char) : Option (Bool × flag) :=
  if c = 'N' then some (false, flag.LATITUDE)
  else if c = 'S' then some (true, flag.LATITUDE)
  else if c = 'E' then some (false, flag.LONGITUDE)
  else if c = 'W' then some (true, flag.LONGITUDE)
  else none

/-- Strip leading and trailing whitespace. -/
def trimChars (l : List Char) : List Char :=
  ((l.dropWhile isSpaceChar).reverse.dropWhile isSpaceChar).reverse

/-- An unsigned fixed-point numeral: integer part, fraction numerator
and number of fraction digits; its value is `ip + fn / 10 ^ fl`. -/
structure RawNum where
  ip : ℕ
  fn : ℕ
  fl : ℕ
deriving DecidableEq

/-- Rational value of a raw numeral. -/
def RawNum.val (r : RawNum) : ℚ := r.ip + (r.fn : ℚ) / 10 ^ r.fl

/-- Raw numeral for a whole number. -/
def RawNum.ofNat (n : ℕ) : RawNum := ⟨n, 0, 0⟩

/-- Horner evaluation of a big-endian ASCII digit string. -/
def natOfDigits (l : List Char) : ℕ :=
  l.foldl (fun a c => 10 * a + digitVal c) 0

/-- Modelled from the spec: a non-final component must be a pure
(non-fractional) unsigned integer: a nonempty all-digit string. -/
def parseIntPart (l : List Char) : Except String ℕ :=
  if l.isEmpty then Except.error "empty numeric component"
  else if l.all isDigitChar then Except.ok (natOfDigits l)
  else Except.error "component is not an unsigned integer"

/-- Split a character list at the first dot, if any. -/
def splitOnDot : List Char → List Char × Option (List Char)
  | [] => ([], none)
  | c :: rest =>
    if c = '.' then ([], some rest)
    else
      let p := splitOnDot rest
      (c :: p.1, p.2)

/-- Modelled from the spec: a final component may carry a decimal
fraction; digits with at most one dot and at least one digit. -/
def parseNumber (l : List Char) : Except String RawNum :=
  match splitOnDot l with
  | (ip, none) => (parseIntPart ip).map RawNum.ofNat
  | (ip, some fp) =>
    if ip.all isDigitChar && fp.all isDigitChar &&
        (!ip.isEmpty || !fp.isEmpty) && !fp.contains '.' then
      Except.ok ⟨natOfDigits ip, natOfDigits fp, fp.length⟩
    else Except.error "malformed decimal component"

/-- Split on the literal colon character, keeping empty fields. -/
def splitOnColon : List Char → List (List Char)
  | [] => [[]]
  | c :: rest =>
    if c = ':' then [] :: splitOnColon rest
    else
      match splitOnColon rest with
      | [] => [[c]]
      | a :: t => (c :: a) :: t

/-- Canonical unit-marker test. -/
def isMarkerChar (c : Char) : Bool := c = 'd' || c = aposChar || c = quotChar

/-- Rank of a canonical marker: degree 0, minute 1, second 2. -/
def markerRank (c : Char) : ℕ :=
  if c = 'd' then 0 else if c = aposChar then 1 else 2

/-- Modelled from the spec: cut the text at each canonical unit marker,
pairing every component with the marker that follows it (`none` for an
unmarked trailing component). -/
def splitMarks : List Char → List Char → List (List Char × Option Char)
  | [], acc => if acc.isEmpty then [] else [(acc.reverse, none)]
  | c :: rest, acc =>
    if isMarkerChar c then (acc.reverse, some c) :: splitMarks rest []
    else splitMarks rest (c :: acc)

/-- Modelled from the spec: markers must appear at most once each in
degree, minute, second order; an unmarked component is legal only in
final position and denotes the next unit smaller than the last marked
one. -/
def assignUnits : List (List Char × Option Char) → ℕ → Except String (List (List Char × ℕ))
  | [], _ => Except.ok []
  | (cs, none) :: rest, lo =>
    if rest.isEmpty then
      if lo ≤ 2 then Except.ok [(cs, lo)]
      else Except.error "unmarked component after a seconds component"
    else Except.error "unit marker missing on a non-final component"
  | (cs, some mk) :: rest, lo =>
    if lo ≤ markerRank mk then
      (assignUnits rest (markerRank mk + 1)).map (fun t => (cs, markerRank mk) :: t)
    else Except.error "unit markers out of order or repeated"

/-- Modelled from the spec: parse each component (only the final one may
be fractional), check that minute and second integer parts are below 60,
and fill the degree, minute and second slots. -/
def evalParts : List (List Char × ℕ) → Except String (RawNum × RawNum × RawNum)
  | [] => Except.ok (⟨0, 0, 0⟩, ⟨0, 0, 0⟩, ⟨0, 0, 0⟩)
  | (cs, u) :: rest => do
    let v ← if rest.isEmpty then parseNumber cs else (parseIntPart cs).map RawNum.ofNat
    if 1 ≤ u ∧ 60 ≤ v.ip then
      Except.error "minutes or seconds not less than 60"
    else do
      let dms ← evalParts rest
      Except.ok (if u = 0 then (v, dms.2.1, dms.2.2)
                 else if u = 1 then (dms.1, v, dms.2.2)
                 else (dms.1, dms.2.1, v))

/-- Modelled from the spec: split the normalized text either on colons
(two or three all-present fields, the non-final ones integral) or on
canonical unit markers, the two styles never mixed; returns the degree,
minute and second raw numerals. -/
def decodeBody (l : List Char) : Except String (RawNum × RawNum × RawNum) :=
  if l.contains ':' then
    if l.any isMarkerChar then
      Except.error "colon and unit-marker delimiters cannot be mixed"
    else
      match splitOnColon l with
      | [a, b] => do
        let d ← parseIntPart a
        let m ← parseNumber b
        if 60 ≤ m.ip then Except.error "minutes not less than 60"
        else Except.ok (RawNum.ofNat d, m, ⟨0, 0, 0⟩)
      | [a, b, c] => do
        let d ← parseIntPart a
        let m ← parseIntPart b
        let s ← parseNumber c
        if 60 ≤ m then Except.error "minutes not less than 60"
        else if 60 ≤ s.ip then Except.error "seconds not less than 60"
        else Except.ok (RawNum.ofNat d, RawNum.ofNat m, s)
      | _ => Except.error "wrong number of colon-separated fields"
  else
    (assignUnits (splitMarks l []) 0).bind evalParts

/-- Fully parsed angle before rational assembly. -/
structure RawAngle where
  neg : Bool
  deg : RawNum
  min : RawNum
  sec : RawNum
  ind : flag
deriving DecidableEq

/-- Modelled from the spec: a single hemisphere designator letter is
permitted at the very start or the very end of the (trimmed) string, not
both; it fixes the indicator class and an implied sign. -/
def stripHem : List Char → Except String (Bool × flag × List Char)
  | [] => Except.error "empty angle string"
  | c :: rest =>
    match hemData c with
    | some p =>
      match rest.getLast? with
      | none => Except.error "the string is only a hemisphere designator"
      | some c2 =>
        if (hemData c2).isSome then
          Except.error "hemisphere designators at both ends"
        else Except.ok (p.1, p.2, rest)
    | none =>
      match (c :: rest).getLast? with
      | none => Except.ok (false, flag.NONE, c :: rest)
      | some c2 =>
        match hemData c2 with
        | some p => Except.ok (p.1, p.2, (c :: rest).dropLast)
        | none => Except.ok (false, flag.NONE, c :: rest)

/-- Modelled from the spec: after the hemisphere designator is stripped,
one optional leading numeric sign remains (`true` = negative). -/
def stripSign : List Char → Bool × List Char
  | [] => (false, [])
  | c :: rest =>
    if c = '-' then (true, rest)
    else if c = '+' then (false, rest)
    else (false, c :: rest)

/-- Modelled from the spec: the full decoder pipeline up to, but not
including, rational assembly: trim, hemisphere designator, numeric sign,
glyph normalization, delimiter split, component parsing and range
validation. -/
def decodeCore (l : List Char) : Except String RawAngle := do
  let t := trimChars l
  let hp ← stripHem t
  let sp := stripSign hp.2.2
  let l3 := collapseMin (sp.2.map normChar)
  let dms ← decodeBody l3
  Except.ok ⟨xor hp.1 sp.1, dms.1, dms.2.1, dms.2.2, hp.2.1⟩

/-- The inline `DMS::Decode(real d, real m, real s)` overload
(`DMS.hpp` lines 193-194): combine components without propagating the
sign of `d`. -/
def DecodeDMS (d m s : ℚ) : ℚ := d + (m + s / 60) / 60

/-- Modelled from the spec: `DMS::Decode(string, flag&)`: parse a DMS
string into signed decimal degrees and a hemisphere indicator. -/
def Decode (dms : String) : Except String (ℚ × flag) :=
  (decodeCore dms.data).map
    (fun r => ((if r.neg then -1 else 1) * DecodeDMS r.deg.val r.min.val r.sec.val, r.ind))

/-- True exactly when a decode-family operation failed. -/
def isErr {α : Type} : Except String α → Bool
  | Except.error _ => true
  | Except.ok _ => false

/-- Modelled from the spec: reduce an angle into [−180, 180), congruent
modulo 360 (the `Math::AngNormalize` collaborator used on the longitude
and azimuth results). -/
def AngNormalize (q : ℚ) : ℚ := q - 360 * ⌊(q + 180) / 360⌋

/-- Modelled from the spec: authoritative latitude/longitude assignment
from the two decoded values and their indicators; with no indicators the
first string is the latitude unless `swaplatlong` is set. -/
def latLonAssign (va : ℚ) (ia : flag) (vb : ℚ) (ib : flag) (swaplatlong : Bool) :
    Except String (ℚ × ℚ) :=
  match ia, ib with
  | flag.LATITUDE, flag.LATITUDE => Except.error "both strings interpreted as latitudes"
  | flag.LONGITUDE, flag.LONGITUDE => Except.error "both strings interpreted as longitudes"
  | flag.LATITUDE, _ => Except.ok (va, vb)
  | _, flag.LATITUDE => Except.ok (vb, va)
  | flag.LONGITUDE, _ => Except.ok (vb, va)
  | _, flag.LONGITUDE => Except.ok (va, vb)
  | _, _ => Except.ok (if swaplatlong then (vb, va) else (va, vb))

/-- Modelled from the spec: `DMS::DecodeLatLon`: decode both strings,
resolve the latitude/longitude assignment, check the ranges
([−90, 90] for latitude, [−540, 540) for longitude) and reduce the
longitude into [−180, 180). -/
def DecodeLatLon (dmsa dmsb : String) (swaplatlong : Bool) : Except String (ℚ × ℚ) := do
  let a ← Decode dmsa
  let b ← Decode dmsb
  let p ← latLonAssign a.1 a.2 b.1 b.2 swaplatlong
  if p.1 < -90 ∨ 90 < p.1 then Except.error "latitude not in [-90d, 90d]"
  else if p.2 < -540 ∨ 540 ≤ p.2 then Except.error "longitude not in [-540d, 540d)"
  else Except.ok (p.1, AngNormalize p.2)

/-- Modelled from the spec: the output-parameter view of
`DMS::DecodeLatLon`: the caller supplies current values of `lat` and
`lon`; the procedure computes into locals and writes the outputs only
after every check has passed. -/
def DecodeLatLonSt (dmsa dmsb : String) (swaplatlong : Bool) (lat lon : ℚ) : ℚ × ℚ :=
  match Decode dmsa with
  | Except.error _ => (lat, lon)
  | Except.ok a =>
    match Decode dmsb with
    | Except.error _ => (lat, lon)
    | Except.ok b =>
      match latLonAssign a.1 a.2 b.1 b.2 swaplatlong with
      | Except.error _ => (lat, lon)
      | Except.ok p =>
        if p.1 < -90 ∨ 90 < p.1 then (lat, lon)
        else if p.2 < -540 ∨ 540 ≤ p.2 then (lat, lon)
        else (p.1, AngNormalize p.2)

/-- Modelled from the spec: `DMS::DecodeAngle`: no hemisphere designator
is allowed and no range check is done. -/
def DecodeAngle (angstr : String) : Except String ℚ := do
  let a ← Decode angstr
  if a.2 ≠ flag.NONE then Except.error "hemisphere designator not allowed on an angle"
  else Except.ok a.1

/-- Modelled from the spec: `DMS::DecodeAzimuth`: an N/S designator is
forbidden, the decoded value must lie in [−540, 540), and the result is
reduced into [−180, 180). -/
def DecodeAzimuth (azistr : String) : Except String ℚ := do
  let a ← Decode azistr
  if a.2 = flag.LATITUDE then Except.error "N/S designator not allowed in azimuth"
  else if a.1 < -540 ∨ 540 ≤ a.1 then Except.error "azimuth not in [-540d, 540d)"
  else Except.ok (AngNormalize a.1)

/-- Big-endian ASCII digit string of a natural number. -/
def natDigits (n : ℕ) : List Char :=
  if n = 0 then ['0'] else ((Nat.digits 10 n).map Nat.digitChar).reverse

/-- Pad a digit string with leading zeros to width `w`. -/
def padZeros (w : ℕ) (l : List Char) : List Char :=
  List.replicate (w - l.length) '0' ++ l

/-- Fixed-point rendering of the scaled natural `n`: the value
`n / 10 ^ prec` with exactly `prec` digits after the decimal point and
the integer field zero-padded to width `w`. -/
def fixedFmt (n prec w : ℕ) : List Char :=
  padZeros w (natDigits (n / 10 ^ prec)) ++
    (if prec = 0 then [] else '.' :: padZeros prec (natDigits (n % 10 ^ prec)))

/-- Round a nonnegative rational to the nearest natural number. -/
def natRound (q : ℚ) : ℕ := (round q).toNat

/-- Degree-field width selected by the indicator: 2 for LATITUDE, 3 for
LONGITUDE and AZIMUTH, 1 (no padding beyond the units place) otherwise. -/
def dWidth : flag → ℕ
  | flag.LATITUDE => 2
  | flag.LONGITUDE => 3
  | flag.AZIMUTH => 3
  | _ => 1

/-- Scale factor of the trailing unit in degrees. -/
def unitScale : component → ℕ
  | component.DEGREE => 1
  | component.MINUTE => 60
  | component.SECOND => 3600

/-- Modelled from the spec: the component fields of an encoded string:
the integer components above the trailing unit (minutes and seconds
always rendered with 2 digits, degrees with `w`) followed by the
trailing component in fixed point with `prec` fraction digits, joined
by the canonical glyphs or by the supplied separator character. -/
def encodeParts (n prec w : ℕ) (trailing : component) (dmssep : Option Char) : List Char :=
  match trailing with
  | component.DEGREE =>
    fixedFmt n prec w ++ (match dmssep with | some _ => [] | none => ['d'])
  | component.MINUTE =>
    let dPart := padZeros w (natDigits (n / (60 * 10 ^ prec)))
    let mPart := fixedFmt (n % (60 * 10 ^ prec)) prec 2
    (match dmssep with
     | some c => dPart ++ c :: mPart
     | none => dPart ++ 'd' :: mPart ++ [aposChar])
  | component.SECOND =>
    let dPart := padZeros w (natDigits (n / (3600 * 10 ^ prec)))
    let mPart := padZeros 2 (natDigits (n / (60 * 10 ^ prec) % 60))
    let sPart := fixedFmt (n % (60 * 10 ^ prec)) prec 2
    (match dmssep with
     | some c => dPart ++ c :: mPart ++ c :: sPart
     | none => dPart ++ 'd' :: mPart ++ aposChar :: sPart ++ [quotChar])

/-- Modelled from the spec: the primary `DMS::Encode(angle, trailing,
prec, ind, dmssep)`: for AZIMUTH first reduce into [0, 360); round the
magnitude to `prec` digits of the trailing unit; render the components
through `encodeParts`; sign prefix only for NONE (and NUMBER); trailing
hemisphere letter for LATITUDE/LONGITUDE. -/
def Encode (angle : ℚ) (trailing : component) (prec : ℕ) (ind : flag)
    (dmssep : Option Char) : String :=
  let ang : ℚ := if ind = flag.AZIMUTH then angle - 360 * ⌊angle / 360⌋ else angle
  let neg : Bool := decide (ang < 0)
  let n : ℕ := natRound (|ang| * unitScale trailing * 10 ^ prec)
  let sgn : List Char :=
    if neg ∧ (ind = flag.NONE ∨ ind = flag.NUMBER) then ['-'] else []
  let suffix : List Char :=
    match ind with
    | flag.LATITUDE => [if neg then 'S' else 'N']
    | flag.LONGITUDE => [if neg then 'W' else 'E']
    | _ => []
  String.mk (sgn ++ encodeParts n prec (dWidth ind) trailing dmssep ++ suffix)

end DMS

/-- Modelled from the spec: the `Utility::str` collaborator: plain
fixed-point decimal rendering of a rational with `prec` digits after the
decimal point. -/
def Utility.str (x : ℚ) (prec : ℕ) : String :=
  String.mk ((if x < 0 then ['-'] else []) ++
    DMS.fixedFmt (DMS.natRound (|x| * 10 ^ prec)) prec 1)

namespace DMS

/-- The inline auto-unit `DMS::Encode(angle, prec, ind, dmssep)`
overload (`DMS.hpp` lines 327-334): NUMBER formats a plain number;
otherwise the trailing unit and its digit count are selected from
`prec` and the primary `Encode` is called. -/
def EncodeAuto (angle : ℚ) (prec : ℕ) (ind : flag) (dmssep : Option Char) : String :=
  if ind = flag.NUMBER then Utility.str angle prec
  else
    Encode angle
      (if prec < 2 then component.DEGREE
       else if prec < 4 then component.MINUTE else component.SECOND)
      (if prec < 2 then prec else if prec < 4 then prec - 2 else prec - 4)
      ind dmssep

/-- Truncation toward zero, the meaning of the C++ `int(...)` cast
applied to a real value. -/
def truncQ (q : ℚ) : ℤ := if q < 0 then ⌈q⌉ else ⌊q⌋

/-- The inline splitting overload `DMS::Encode(ang, d, m)`
(`DMS.hpp` lines 343-345): `d = int(ang); m = 60 * (ang - d)`. -/
def split2 (ang : ℚ) : ℚ × ℚ :=
  ((truncQ ang : ℚ), 60 * (ang - (truncQ ang : ℚ)))

/-- The inline splitting overload `DMS::Encode(ang, d, m, s)`
(`DMS.hpp` lines 355-358): `d = int(ang); ang = 60 * (ang - d);
m = int(ang); s = 60 * (ang - m)`. -/
def split3 (ang : ℚ) : ℚ × ℚ × ℚ :=
  let d : ℚ := (truncQ ang : ℚ)
  let a1 : ℚ := 60 * (ang - d)
  let m : ℚ := (truncQ a1 : ℚ)
  (d, m, 60 * (a1 - m))

end DMS

end GeographicLib

namespace GeographicLib

namespace DMS

instance {ε α : Type} [DecidableEq ε] [DecidableEq α] : DecidableEq (Except ε α) :=
  fun a b =>
    match a, b with
    | Except.ok x, Except.ok y =>
      if h : x = y then Decidable.isTrue (by rw [h]) else Decidable.isFalse (by simp [h])
    | Except.error x, Except.error y =>
      if h : x = y then Decidable.isTrue (by rw [h]) else Decidable.isFalse (by simp [h])
    | Except.ok _, Except.error _ => Decidable.isFalse (by simp)
    | Except.error _, Except.ok _ => Decidable.isFalse (by simp)

theorem ok_bindE {α β : Type} (a : α) (f : α → Except String β) :
    (do let x ← Except.ok a; f x) = f a := rfl

theorem error_bindE {α β : Type} (e : String) (f : α → Except String β) :
    (do let x ← (Except.error e : Except String α); f x) = Except.error e := rfl

theorem Decode_eval (s : String) (r : RawAngle) (h : decodeCore s.data = Except.ok r) :
    Decode s =
      Except.ok ((if r.neg then -1 else 1) * DecodeDMS r.deg.val r.min.val r.sec.val, r.ind) := by
  rw [Decode, h]; rfl

theorem AngNormalize_mem (q : ℚ) : -180 ≤ AngNormalize q ∧ AngNormalize q < 180 := by
  constructor
  · have h := Int.floor_le ((q + 180) / 360)
    rw [le_div_iff₀ (by norm_num : (0 : ℚ) < 360)] at h
    simp only [AngNormalize]
    linarith
  · have h := Int.lt_floor_add_one ((q + 180) / 360)
    rw [div_lt_iff₀ (by norm_num : (0 : ℚ) < 360)] at h
    simp only [AngNormalize]
    linarith

theorem AngNormalize_congr (q : ℚ) : ∃ k : ℤ, q - AngNormalize q = 360 * k :=
  ⟨⌊(q + 180) / 360⌋, by simp [AngNormalize]⟩

theorem Decode_N20 : Decode "N20" = Except.ok (20, flag.LATITUDE) := by
  rw [Decode_eval _ ⟨false, ⟨20, 0, 0⟩, ⟨0, 0, 0⟩, ⟨0, 0, 0⟩, flag.LATITUDE⟩ (by decide)]
  norm_num [RawNum.val, DecodeDMS]

theorem Decode_E30 : Decode "E30" = Except.ok (30, flag.LONGITUDE) := by
  rw [Decode_eval _ ⟨false, ⟨30, 0, 0⟩, ⟨0, 0, 0⟩, ⟨0, 0, 0⟩, flag.LONGITUDE⟩ (by decide)]
  norm_num [RawNum.val, DecodeDMS]

theorem Decode_20 : Decode "20" = Except.ok (20, flag.NONE) := by
  rw [Decode_eval _ ⟨false, ⟨20, 0, 0⟩, ⟨0, 0, 0⟩, ⟨0, 0, 0⟩, flag.NONE⟩ (by decide)]
  norm_num [RawNum.val, DecodeDMS]

theorem Decode_30 : Decode "30" = Except.ok (30, flag.NONE) := by
  rw [Decode_eval _ ⟨false, ⟨30, 0, 0⟩, ⟨0, 0, 0⟩, ⟨0, 0, 0⟩, flag.NONE⟩ (by decide)]
  norm_num [RawNum.val, DecodeDMS]

theorem Decode_20W : Decode "20W" = Except.ok (-20, flag.LONGITUDE) := by
  rw [Decode_eval _ ⟨true, ⟨20, 0, 0⟩, ⟨0, 0, 0⟩, ⟨0, 0, 0⟩, flag.LONGITUDE⟩ (by decide)]
  norm_num [RawNum.val, DecodeDMS]

theorem Decode_N95 : Decode "N95" = Except.ok (95, flag.LATITUDE) := by
  rw [Decode_eval _ ⟨false, ⟨95, 0, 0⟩, ⟨0, 0, 0⟩, ⟨0, 0, 0⟩, flag.LATITUDE⟩ (by decide)]
  norm_num [RawNum.val, DecodeDMS]

theorem DecodeLatLon_N20_E30 : DecodeLatLon "N20" "E30" false = Except.ok (20, 30) := by
  rw [DecodeLatLon, Decode_N20, ok_bindE, Decode_E30, ok_bindE]
  rw [show latLonAssign (20, flag.LATITUDE).1 (20, flag.LATITUDE).2 (30, flag.LONGITUDE).1
      (30, flag.LONGITUDE).2 false = Except.ok (20, 30) from rfl, ok_bindE]
  rw [if_neg (by norm_num), if_neg (by norm_num)]
  norm_num [AngNormalize]

theorem DecodeLatLon_20_30_swap : DecodeLatLon "20" "30" true = Except.ok (30, 20) := by
  rw [DecodeLatLon, Decode_20, ok_bindE, Decode_30, ok_bindE]
  rw [show latLonAssign (20, flag.NONE).1 (20, flag.NONE).2 (30, flag.NONE).1
      (30, flag.NONE).2 true = Except.ok (30, 20) from rfl, ok_bindE]
  rw [if_neg (by norm_num), if_neg (by norm_num)]
  norm_num [AngNormalize]

/-- C2: each legal input in the first equivalence class decodes to the
exact degree value −20.51125 (≈ −20.5114), and each legal input in the
second class to 4.0025; the returned indicator is NONE except for the
forms containing S or N, which yield LATITUDE. -/
theorem Decode_equivalence_classes :
    (Decode "-20.51125" = Except.ok (-20.51125, flag.NONE) ∧
     Decode "20d30\x2740.5\"S" = Except.ok (-20.51125, flag.LATITUDE) ∧
     Decode "-20°30\x2740.5" = Except.ok (-20.51125, flag.NONE) ∧
     Decode "-20d30.675" = Except.ok (-20.51125, flag.NONE) ∧
     Decode "N-20d30\x2740.5\"" = Except.ok (-20.51125, flag.LATITUDE) ∧
     Decode "-20:30:40.5" = Except.ok (-20.51125, flag.NONE)) ∧
    (Decode "4d0\x279" = Except.ok (4.0025, flag.NONE) ∧
     Decode "4d9\"" = Except.ok (4.0025, flag.NONE) ∧
     Decode "4d9\x27\x27" = Except.ok (4.0025, flag.NONE) ∧
     Decode "4:0:9" = Except.ok (4.0025, flag.NONE) ∧
     Decode "004:00:09" = Except.ok (4.0025, flag.NONE) ∧
     Decode "4.0025" = Except.ok (4.0025, flag.NONE) ∧
     Decode "4.0025d" = Except.ok (4.0025, flag.NONE) ∧
     Decode "4d0.15" = Except.ok (4.0025, flag.NONE) ∧
     Decode "04:.15" = Except.ok (4.0025, flag.NONE)) := by
  refine ⟨⟨?_, ?_, ?_, ?_, ?_, ?_⟩, ?_, ?_, ?_, ?_, ?_, ?_, ?_, ?_, ?_⟩
  · rw [Decode_eval _ ⟨true, ⟨20, 51125, 5⟩, ⟨0, 0, 0⟩, ⟨0, 0, 0⟩, flag.NONE⟩ (by decide)]
    norm_num [RawNum.val, DecodeDMS]
  · rw [Decode_eval _ ⟨true, ⟨20, 0, 0⟩, ⟨30, 0, 0⟩, ⟨40, 5, 1⟩, flag.LATITUDE⟩ (by decide)]
    norm_num [RawNum.val, DecodeDMS]
  · rw [Decode_eval _ ⟨true, ⟨20, 0, 0⟩, ⟨30, 0, 0⟩, ⟨40, 5, 1⟩, flag.NONE⟩ (by decide)]
    norm_num [RawNum.val, DecodeDMS]
  · rw [Decode_eval _ ⟨true, ⟨20, 0, 0⟩, ⟨30, 675, 3⟩, ⟨0, 0, 0⟩, flag.NONE⟩ (by decide)]
    norm_num [RawNum.val, DecodeDMS]
  · rw [Decode_eval _ ⟨true, ⟨20, 0, 0⟩, ⟨30, 0, 0⟩, ⟨40, 5, 1⟩, flag.LATITUDE⟩ (by decide)]
    norm_num [RawNum.val, DecodeDMS]
  · rw [Decode_eval _ ⟨true, ⟨20, 0, 0⟩, ⟨30, 0, 0⟩, ⟨40, 5, 1⟩, flag.NONE⟩ (by decide)]
    norm_num [RawNum.val, DecodeDMS]
  · rw [Decode_eval _ ⟨false, ⟨4, 0, 0⟩, ⟨0, 0, 0⟩, ⟨9, 0, 0⟩, flag.NONE⟩ (by decide)]
    norm_num [RawNum.val, DecodeDMS]
  · rw [Decode_eval _ ⟨false, ⟨4, 0, 0⟩, ⟨0, 0, 0⟩, ⟨9, 0, 0⟩, flag.NONE⟩ (by decide)]
    norm_num [RawNum.val, DecodeDMS]
  · rw [Decode_eval _ ⟨false, ⟨4, 0, 0⟩, ⟨0, 0, 0⟩, ⟨9, 0, 0⟩, flag.NONE⟩ (by decide)]
    norm_num [RawNum.val, DecodeDMS]
  · rw [Decode_eval _ ⟨false, ⟨4, 0, 0⟩, ⟨0, 0, 0⟩, ⟨9, 0, 0⟩, flag.NONE⟩ (by decide)]
    norm_num [RawNum.val, DecodeDMS]
  · rw [Decode_eval _ ⟨false, ⟨4, 0, 0⟩, ⟨0, 0, 0⟩, ⟨9, 0, 0⟩, flag.NONE⟩ (by decide)]
    norm_num [RawNum.val, DecodeDMS]
  · rw [Decode_eval _ ⟨false, ⟨4, 25, 4⟩, ⟨0, 0, 0⟩, ⟨0, 0, 0⟩, flag.NONE⟩ (by decide)]
    norm_num [RawNum.val, DecodeDMS]
  · rw [Decode_eval _ ⟨false, ⟨4, 25, 4⟩, ⟨0, 0, 0⟩, ⟨0, 0, 0⟩, flag.NONE⟩ (by decide)]
    norm_num [RawNum.val, DecodeDMS]
  · rw [Decode_eval _ ⟨false, ⟨4, 0, 0⟩, ⟨0, 15, 2⟩, ⟨0, 0, 0⟩, flag.NONE⟩ (by decide)]
    norm_num [RawNum.val, DecodeDMS]
  · rw [Decode_eval _ ⟨false, ⟨4, 0, 0⟩, ⟨0, 15, 2⟩, ⟨0, 0, 0⟩, flag.NONE⟩ (by decide)]
    norm_num [RawNum.val, DecodeDMS]

/-- C3: every one of the nine illegal example strings (out-of-order
unit markers, empty colon fields, non-integral non-final component,
sign adjacent to a hemisphere letter, exponent notation, minute at
least 60, interior sign) makes Decode fail. -/
theorem Decode_illegal_inputs :
    isErr (Decode "4d5\"4\x27") = true ∧
    isErr (Decode "4::5") = true ∧
    isErr (Decode "4:5:") = true ∧
    isErr (Decode ":4:5") = true ∧
    isErr (Decode "4d4.5\x274\"") = true ∧
    isErr (Decode "-N20.5") = true ∧
    isErr (Decode "1.8e2d") = true ∧
    isErr (Decode "4:60") = true ∧
    isErr (Decode "4d-5\x27") = true := by
  decide

/-- C4: DecodeAzimuth fails when the decoded string carries a LATITUDE
indicator; an E/W designator is permitted and W negates the result (the
sign is applied by Decode, as on "20W"); the call fails when the decoded
signed value lies outside [−540, 540) and otherwise returns that value
reduced into [−180, 180). -/
theorem DecodeAzimuth_spec :
    (∀ s : String, ∀ v : ℚ, Decode s = Except.ok (v, flag.LATITUDE) →
        isErr (DecodeAzimuth s) = true) ∧
    (∀ s : String, ∀ v : ℚ, ∀ ind : flag,
        Decode s = Except.ok (v, ind) → ind ≠ flag.LATITUDE →
        ((v < -540 ∨ 540 ≤ v) → isErr (DecodeAzimuth s) = true) ∧
        (-540 ≤ v → v < 540 →
          DecodeAzimuth s = Except.ok (AngNormalize v) ∧
          -180 ≤ AngNormalize v ∧ AngNormalize v < 180 ∧
          ∃ k : ℤ, v - AngNormalize v = 360 * k)) ∧
    DecodeAzimuth "20W" = Except.ok (-20) := by
  refine ⟨fun s v h => ?_, fun s v ind h hne => ⟨fun hout => ?_, fun hlo hhi => ?_⟩, ?_⟩
  · rw [DecodeAzimuth, h, ok_bindE]
    simp [isErr]
  · rw [DecodeAzimuth, h, ok_bindE]
    rw [if_neg (by simpa using hne), if_pos (by simpa using hout)]
    simp [isErr]
  · rw [DecodeAzimuth, h, ok_bindE]
    rw [if_neg (by simpa using hne), if_neg (by simp; constructor <;> [linarith; linarith])]
    exact ⟨rfl, (AngNormalize_mem v).1, (AngNormalize_mem v).2, AngNormalize_congr v⟩
  · rw [DecodeAzimuth, Decode_20W, ok_bindE]
    rw [if_neg (by simp), if_neg (by norm_num)]
    norm_num [AngNormalize]

/-- C4 witness: concrete application at the string "30". -/
theorem DecodeAzimuth_spec_witness :
    Decode "30" = Except.ok (30, flag.NONE) ∧
    DecodeAzimuth "30" = Except.ok (AngNormalize 30) :=
  ⟨Decode_30,
   ((DecodeAzimuth_spec.2.1 "30" 30 flag.NONE Decode_30 (by simp)).2
     (by norm_num) (by norm_num)).1⟩

/-- C5: a LATITUDE or LONGITUDE indicator on either decoded string is
authoritative for the latitude/longitude assignment; two indicators of
the same axis make the call fail; with no indicators the first string
is the latitude and the second the longitude, reversed when the swap
default is set; decodeLatLon("N20", "E30") gives (20, 30) and
decodeLatLon("20", "30", swap) gives (30, 20). -/
theorem DecodeLatLon_assignment_spec :
    (∀ va vb : ℚ, ∀ swap : Bool,
        isErr (latLonAssign va flag.LATITUDE vb flag.LATITUDE swap) = true ∧
        isErr (latLonAssign va flag.LONGITUDE vb flag.LONGITUDE swap) = true) ∧
    (∀ a b : String, ∀ va vb : ℚ, ∀ ia ib : flag, ∀ swap : Bool,
        Decode a = Except.ok (va, ia) → Decode b = Except.ok (vb, ib) →
        isErr (latLonAssign va ia vb ib swap) = true →
        isErr (DecodeLatLon a b swap) = true) ∧
    (∀ va vb : ℚ, ∀ swap : Bool,
        latLonAssign va flag.LATITUDE vb flag.NONE swap = Except.ok (va, vb) ∧
        latLonAssign va flag.LATITUDE vb flag.LONGITUDE swap = Except.ok (va, vb) ∧
        latLonAssign va flag.NONE vb flag.LATITUDE swap = Except.ok (vb, va) ∧
        latLonAssign va flag.LONGITUDE vb flag.LATITUDE swap = Except.ok (vb, va) ∧
        latLonAssign va flag.LONGITUDE vb flag.NONE swap = Except.ok (vb, va) ∧
        latLonAssign va flag.NONE vb flag.LONGITUDE swap = Except.ok (va, vb)) ∧
    (∀ va vb : ℚ,
        latLonAssign va flag.NONE vb flag.NONE false = Except.ok (va, vb) ∧
        latLonAssign va flag.NONE vb flag.NONE true = Except.ok (vb, va)) ∧
    (∀ a b : String, ∀ va vb lat lon : ℚ, ∀ ia ib : flag, ∀ swap : Bool,
        Decode a = Except.ok (va, ia) → Decode b = Except.ok (vb, ib) →
        latLonAssign va ia vb ib swap = Except.ok (lat, lon) →
        ¬(lat < -90 ∨ 90 < lat) → ¬(lon < -540 ∨ 540 ≤ lon) →
        DecodeLatLon a b swap = Except.ok (lat, AngNormalize lon)) ∧
    DecodeLatLon "N20" "E30" false = Except.ok (20, 30) ∧
    DecodeLatLon "20" "30" true = Except.ok (30, 20) := by
  refine ⟨fun va vb swap => ⟨rfl, rfl⟩,
    fun a b va vb ia ib swap ha hb hc => ?_,
    fun va vb swap => ⟨rfl, rfl, rfl, rfl, rfl, rfl⟩,
    fun va vb => ⟨rfl, rfl⟩,
    fun a b va vb lat lon ia ib swap ha hb hc h1 h2 => ?_,
    DecodeLatLon_N20_E30, DecodeLatLon_20_30_swap⟩
  · rw [DecodeLatLon, ha, ok_bindE, hb, ok_bindE]
    revert hc
    cases hA : latLonAssign (va, ia).1 (va, ia).2 (vb, ib).1 (vb, ib).2 swap with
    | error e => intro _; rw [error_bindE]; rfl
    | ok p => intro hc; simp [isErr] at hc
  · rw [DecodeLatLon, ha, ok_bindE, hb, ok_bindE]
    rw [show latLonAssign (va, ia).1 (va, ia).2 (vb, ib).1 (vb, ib).2 swap =
        Except.ok (lat, lon) from hc, ok_bindE]
    rw [if_neg h1, if_neg h2]

/-- C5 witness: concrete applications covering a same-axis failure and
the authoritative-assignment success path. -/
theorem DecodeLatLon_assignment_spec_witness :
    isErr (DecodeLatLon "N20" "N95" false) = true ∧
    DecodeLatLon "N20" "E30" false = Except.ok (20, AngNormalize 30) :=
  ⟨DecodeLatLon_assignment_spec.2.1 "N20" "N95" 20 95 flag.LATITUDE flag.LATITUDE false
      Decode_N20 Decode_N95 rfl,
   DecodeLatLon_assignment_spec.2.2.2.2.1 "N20" "E30" 20 30 20 30
      flag.LATITUDE flag.LONGITUDE false Decode_N20 Decode_E30 rfl
      (by norm_num) (by norm_num)⟩

/-- C6: DecodeLatLon fails whenever the assigned latitude is outside
[−90, 90] or the assigned longitude is outside [−540, 540); on success
the returned longitude lies in [−180, 180) and is congruent modulo 360
to the assigned (decoded) longitude. -/
theorem DecodeLatLon_range_spec :
    (∀ a b : String, ∀ va vb lat lon : ℚ, ∀ ia ib : flag, ∀ swap : Bool,
        Decode a = Except.ok (va, ia) → Decode b = Except.ok (vb, ib) →
        latLonAssign va ia vb ib swap = Except.ok (lat, lon) →
        ((lat < -90 ∨ 90 < lat) → isErr (DecodeLatLon a b swap) = true) ∧
        ((lon < -540 ∨ 540 ≤ lon) → isErr (DecodeLatLon a b swap) = true)) ∧
    (∀ a b : String, ∀ lat lon : ℚ, ∀ swap : Bool,
        DecodeLatLon a b swap = Except.ok (lat, lon) →
        -180 ≤ lon ∧ lon < 180 ∧
        ∃ va vb lon0 : ℚ, ∃ ia ib : flag,
          Decode a = Except.ok (va, ia) ∧ Decode b = Except.ok (vb, ib) ∧
          latLonAssign va ia vb ib swap = Except.ok (lat, lon0) ∧
          -90 ≤ lat ∧ lat ≤ 90 ∧ -540 ≤ lon0 ∧ lon0 < 540 ∧
          ∃ k : ℤ, lon0 - lon = 360 * k) := by
  constructor
  · intro a b va vb lat lon ia ib swap ha hb hc
    rw [DecodeLatLon, ha, ok_bindE, hb, ok_bindE]
    rw [show latLonAssign (va, ia).1 (va, ia).2 (vb, ib).1 (vb, ib).2 swap =
        Except.ok (lat, lon) from hc, ok_bindE]
    constructor
    · intro h1
      rw [if_pos h1]; rfl
    · intro h2
      by_cases h1 : (lat, lon).1 < -90 ∨ 90 < (lat, lon).1
      · rw [if_pos h1]; rfl
      · rw [if_neg h1, if_pos h2]; rfl
  · intro a b lat lon swap h
    rw [DecodeLatLon] at h
    cases hA : Decode a with
    | error e => rw [hA, error_bindE] at h; exact absurd h (by simp)
    | ok pa =>
      rw [hA, ok_bindE] at h
      cases hB : Decode b with
      | error e => rw [hB, error_bindE] at h; exact absurd h (by simp)
      | ok pb =>
        rw [hB, ok_bindE] at h
        cases hC : latLonAssign pa.1 pa.2 pb.1 pb.2 swap with
        | error e => rw [hC, error_bindE] at h; exact absurd h (by simp)
        | ok pc =>
          rw [hC, ok_bindE] at h
          by_cases h1 : pc.1 < -90 ∨ 90 < pc.1
          · rw [if_pos h1] at h; exact absurd h (by simp)
          · rw [if_neg h1] at h
            by_cases h2 : pc.2 < -540 ∨ 540 ≤ pc.2
            · rw [if_pos h2] at h; exact absurd h (by simp)
            · rw [if_neg h2] at h
              rw [Except.ok.injEq, Prod.mk.injEq] at h
              obtain ⟨hlat, hlon⟩ := h
              push_neg at h1 h2
              obtain ⟨k, hk⟩ := AngNormalize_congr pc.2
              refine ⟨?_, ?_, pa.1, pb.1, pc.2, pa.2, pb.2, by rw [← hA], by rw [← hB],
                by rw [← hlat]; exact hC, by linarith [h1.1], by linarith [h1.2],
                h2.1, h2.2, k, by rw [← hlon]; exact hk⟩
              · rw [← hlon]; exact (AngNormalize_mem pc.2).1
              · rw [← hlon]; exact (AngNormalize_mem pc.2).2

/-- C6 witness: concrete applications at an out-of-range latitude and
at a successful decode. -/
theorem DecodeLatLon_range_spec_witness :
    isErr (DecodeLatLon "N95" "E30" false) = true ∧
    (-180 : ℚ) ≤ 30 :=
  ⟨(DecodeLatLon_range_spec.1 "N95" "E30" 95 30 95 30 flag.LATITUDE flag.LONGITUDE false
      Decode_N95 Decode_E30 rfl).1 (by norm_num),
   ((DecodeLatLon_range_spec.2 "N20" "E30" 20 30 false DecodeLatLon_N20_E30).1)⟩

/-- C7: the decode operations are all-or-nothing: when DecodeLatLon
fails for any reason the caller-supplied output variables keep exactly
the values they held before the call, and on success they receive the
decoded pair. -/
theorem DecodeLatLon_all_or_nothing (a b : String) (swap : Bool) (lat lon : ℚ) :
    (isErr (DecodeLatLon a b swap) = true → DecodeLatLonSt a b swap lat lon = (lat, lon)) ∧
    (∀ p : ℚ × ℚ, DecodeLatLon a b swap = Except.ok p → DecodeLatLonSt a b swap lat lon = p) := by
  rw [DecodeLatLon, DecodeLatLonSt]
  cases Decode a with
  | error e => simp [error_bindE, isErr]
  | ok pa =>
    rw [ok_bindE]
    dsimp only
    cases Decode b with
    | error e => simp [error_bindE, isErr]
    | ok pb =>
      rw [ok_bindE]
      dsimp only
      cases latLonAssign pa.1 pa.2 pb.1 pb.2 swap with
      | error e => simp [error_bindE, isErr]
      | ok pc =>
        rw [ok_bindE]
        by_cases h1 : pc.1 < -90 ∨ 90 < pc.1
        · simp [h1, isErr]
        · by_cases h2 : pc.2 < -540 ∨ 540 ≤ pc.2
          · simp [h1, h2, isErr]
          · simp only [if_neg h1, if_neg h2]
            refine ⟨fun h => absurd h (by simp [isErr]), fun p hp => ?_⟩
            rw [Except.ok.injEq] at hp
            exact hp

/-- C7 witness: a failing pair of inputs leaves the outputs (1, 2)
untouched. -/
theorem DecodeLatLon_all_or_nothing_witness :
    isErr (DecodeLatLon "x" "y" false) = true ∧
    DecodeLatLonSt "x" "y" false 1 2 = (1, 2) :=
  ⟨by decide, (DecodeLatLon_all_or_nothing "x" "y" false 1 2).1 (by decide)⟩

/-- C8: the auto-unit Encode overload returns a plain fixed-point
decimal rendering with the requested precision when the indicator is
NUMBER, and otherwise delegates to the primary Encode with DEGREE and
`prec` digits when prec < 2, MINUTE and prec − 2 digits when
2 ≤ prec < 4, and SECOND and prec − 4 digits when prec ≥ 4. -/
theorem EncodeAuto_spec (angle : ℚ) (prec : ℕ) (ind : flag) (dmssep : Option Char) :
    (ind = flag.NUMBER → EncodeAuto angle prec ind dmssep = Utility.str angle prec) ∧
    (ind ≠ flag.NUMBER → prec < 2 →
      EncodeAuto angle prec ind dmssep = Encode angle component.DEGREE prec ind dmssep) ∧
    (ind ≠ flag.NUMBER → 2 ≤ prec → prec < 4 →
      EncodeAuto angle prec ind dmssep = Encode angle component.MINUTE (prec - 2) ind dmssep) ∧
    (ind ≠ flag.NUMBER → 4 ≤ prec →
      EncodeAuto angle prec ind dmssep = Encode angle component.SECOND (prec - 4) ind dmssep) := by
  refine ⟨fun h => by simp [EncodeAuto, h], fun h hp => ?_, fun h hp1 hp2 => ?_, fun h hp => ?_⟩
  · simp [EncodeAuto, h, hp]
  · have h1 : ¬ prec < 2 := by omega
    simp [EncodeAuto, h, h1, hp2]
  · have h1 : ¬ prec < 2 := by omega
    have h2 : ¬ prec < 4 := by omega
    simp [EncodeAuto, h, h1, h2]

/-- C8 witness: concrete applications at precision 5 with the NUMBER
and NONE indicators. -/
theorem EncodeAuto_spec_witness :
    EncodeAuto 1 5 flag.NUMBER none = Utility.str 1 5 ∧
    EncodeAuto 1 5 flag.NONE none = Encode 1 component.SECOND 1 flag.NONE none :=
  ⟨(EncodeAuto_spec 1 5 flag.NUMBER none).1 rfl,
   (EncodeAuto_spec 1 5 flag.NONE none).2.2.2 (by decide) (by decide)⟩

/-- C9: the split helpers are total arithmetic decompositions with the
integer parts obtained by truncation toward zero: split2 returns
(int(ang), 60·(ang − int(ang))), split3 additionally splits the minutes
the same way; split2(4.5) = (4, 30) and split3(4.0025) = (4, 0, 9). -/
theorem Encode_split_spec :
    (∀ ang : ℚ,
        split2 ang = ((truncQ ang : ℚ), 60 * (ang - (truncQ ang : ℚ))) ∧
        split3 ang = ((truncQ ang : ℚ),
          (truncQ (60 * (ang - (truncQ ang : ℚ))) : ℚ),
          60 * (60 * (ang - (truncQ ang : ℚ)) -
            (truncQ (60 * (ang - (truncQ ang : ℚ))) : ℚ)))) ∧
    (∀ q : ℚ, |truncQ q| = ⌊|q|⌋ ∧ 0 ≤ (truncQ q : ℚ) * q) ∧
    split2 (9 / 2) = (4, 30) ∧
    split3 (4.0025 : ℚ) = (4, 0, 9) := by
  refine ⟨fun ang => ⟨rfl, rfl⟩, fun q => ⟨?_, ?_⟩, ?_, ?_⟩
  · rcases lt_or_le q 0 with h | h
    · rw [truncQ, if_pos h, abs_of_neg h, Int.floor_neg,
        abs_of_nonpos (Int.ceil_le.mpr (by exact_mod_cast h.le))]
    · rw [truncQ, if_neg (not_lt.mpr h), abs_of_nonneg h,
        abs_of_nonneg (Int.floor_nonneg.mpr h)]
  · rcases lt_or_le q 0 with h | h
    · rw [truncQ, if_pos h]
      have hc : (⌈q⌉ : ℚ) ≤ 0 := by exact_mod_cast Int.ceil_le.mpr (by exact_mod_cast h.le)
      nlinarith
    · rw [truncQ, if_neg (not_lt.mpr h)]
      exact mul_nonneg (by exact_mod_cast Int.floor_nonneg.mpr h) h
  · norm_num [split2, truncQ]
  · norm_num [split3, truncQ]

/-- C10: recombining the three-way split through the Decode(d, m, s)
formula recovers the angle exactly, and the formula does not propagate
the sign of d to m and s: Decode(−3, 20, 0) is −3 + 20/60, not
−(3 + 20/60). -/
theorem split3_DecodeDMS_roundtrip :
    (∀ ang : ℚ, DecodeDMS (split3 ang).1 (split3 ang).2.1 (split3 ang).2.2 = ang) ∧
    DecodeDMS (-3) 20 0 = -3 + 20 / 60 ∧
    DecodeDMS (-3) 20 0 ≠ -(3 + 20 / 60) := by
  refine ⟨fun ang => ?_, by norm_num [DecodeDMS], by norm_num [DecodeDMS]⟩
  simp only [split3, DecodeDMS]
  field_simp



theorem digitVal_digitChar {d : ℕ} (h : d < 10) : digitVal (Nat.digitChar d) = d := by
  interval_cases d <;> decide

theorem isDigitChar_digitChar {d : ℕ} (h : d < 10) : isDigitChar (Nat.digitChar d) = true := by
  interval_cases d <;> decide

theorem natDigits_ne_nil (n : ℕ) : natDigits n ≠ [] := by
  rw [natDigits]
  split
  · simp
  · next h =>
    simp only [ne_eq, List.reverse_eq_nil_iff, List.map_eq_nil_iff]
    exact Nat.digits_ne_nil_iff_ne_zero.mpr h

theorem natDigits_all_digits (n : ℕ) : ∀ c ∈ natDigits n, isDigitChar c = true := by
  intro c hc
  rw [natDigits] at hc
  split at hc
  · simp at hc; rw [hc]; decide
  · simp only [List.mem_reverse, List.mem_map] at hc
    obtain ⟨d, hd, rfl⟩ := hc
    exact isDigitChar_digitChar (Nat.digits_lt_base (by norm_num) hd)

theorem foldl_digits (ds : List ℕ) (a : ℕ) (h : ∀ d ∈ ds, d < 10) :
    ((ds.map Nat.digitChar).reverse).foldl (fun a c => 10 * a + digitVal c) a =
      a * 10 ^ ds.length + Nat.ofDigits 10 ds := by
  induction ds generalizing a with
  | nil => simp [Nat.ofDigits]
  | cons d tl ih =>
    have hd : d < 10 := h d (List.mem_cons_self ..)
    simp only [List.map_cons, List.reverse_cons, List.foldl_append, List.foldl_cons,
      List.foldl_nil]
    rw [ih a (fun x hx => h x (List.mem_cons_of_mem d hx))]
    rw [digitVal_digitChar hd, Nat.ofDigits_cons]
    simp only [List.length_cons]
    ring

theorem natOfDigits_natDigits (n : ℕ) : natOfDigits (natDigits n) = n := by
  rw [natDigits]
  split
  · next h => rw [h]; decide
  · rw [natOfDigits, foldl_digits _ _ (fun d hd => Nat.digits_lt_base (by norm_num) hd)]
    simp [Nat.ofDigits_digits]

theorem natOfDigits_padZeros (w : ℕ) (l : List Char) :
    natOfDigits (padZeros w l) = natOfDigits l := by
  rw [padZeros, natOfDigits, natOfDigits, List.foldl_append]
  congr 1
  induction (w - l.length) with
  | zero => rfl
  | succ k ih => simpa [List.replicate_succ, digitVal] using ih

theorem padZeros_all_digits (w : ℕ) (l : List Char) (h : ∀ c ∈ l, isDigitChar c = true) :
    ∀ c ∈ padZeros w l, isDigitChar c = true := by
  intro c hc
  rw [padZeros, List.mem_append] at hc
  rcases hc with hc | hc
  · rw [List.eq_of_mem_replicate hc]; decide
  · exact h c hc

theorem padZeros_ne_nil (w : ℕ) (l : List Char) (h : l ≠ []) : padZeros w l ≠ [] := by
  rw [padZeros]
  simp [h]

theorem natDigits_length_le {m k : ℕ} (hk : 1 ≤ k) (h : m < 10 ^ k) :
    (natDigits m).length ≤ k := by
  rw [natDigits]
  split
  · simpa using hk
  · next hm =>
    simp only [List.length_reverse, List.length_map]
    by_contra hlen
    push_neg at hlen
    have h1 : 10 ^ (k + 1) ≤ 10 ^ (Nat.digits 10 m).length :=
      Nat.pow_le_pow_right (by norm_num) hlen
    have h2 := Nat.base_pow_length_digits_le 10 m (by norm_num) hm
    have h3 : 10 * 10 ^ k ≤ 10 * m := by
      calc 10 * 10 ^ k = 10 ^ (k + 1) := by ring
      _ ≤ 10 ^ (Nat.digits 10 m).length := h1
      _ ≤ 10 * m := h2
    omega

theorem padZeros_length {w : ℕ} {l : List Char} (h : l.length ≤ w) :
    (padZeros w l).length = w := by
  rw [padZeros]
  simp only [List.length_append, List.length_replicate]
  omega

theorem parseIntPart_digits (l : List Char) (hne : l ≠ [])
    (h : ∀ c ∈ l, isDigitChar c = true) :
    parseIntPart l = Except.ok (natOfDigits l) := by
  rw [parseIntPart, if_neg (by simpa using hne), if_pos (List.all_eq_true.mpr h)]



theorem isDigitChar_ne_dot {c : Char} (h : isDigitChar c = true) : c ≠ '.' := by
  intro hc
  rw [hc] at h
  exact absurd h (by decide)

theorem splitOnDot_append (l1 l2 : List Char) (h : ∀ c ∈ l1, c ≠ '.') :
    splitOnDot (l1 ++ '.' :: l2) = (l1, some l2) := by
  induction l1 with
  | nil => simp [splitOnDot]
  | cons c tl ih =>
    have hc : c ≠ '.' := h c (List.mem_cons_self ..)
    simp only [List.cons_append, splitOnDot, if_neg hc, List.append_eq]
    rw [ih (fun x hx => h x (List.mem_cons_of_mem c hx))]

theorem parseNumber_fixed (l1 l2 : List Char)
    (h1 : ∀ c ∈ l1, isDigitChar c = true) (h2 : ∀ c ∈ l2, isDigitChar c = true)
    (hne : l1 ≠ []) :
    parseNumber (l1 ++ '.' :: l2) =
      Except.ok ⟨natOfDigits l1, natOfDigits l2, l2.length⟩ := by
  have hsplit := splitOnDot_append l1 l2 (fun c hc => isDigitChar_ne_dot (h1 c hc))
  simp only [parseNumber, hsplit]
  rw [if_pos]
  simp only [Bool.and_eq_true, List.all_eq_true]
  refine ⟨⟨⟨h1, h2⟩, ?_⟩, ?_⟩
  · cases l1 with
    | nil => exact absurd rfl hne
    | cons a b => simp
  · cases hcon : l2.contains '.' with
    | false => rfl
    | true =>
      rw [List.elem_iff] at hcon
      exact absurd rfl (isDigitChar_ne_dot (h2 _ hcon))

theorem splitMarks_acc_append (l : List Char) (acc : List Char) (m : Char) (rest : List Char)
    (hl : ∀ c ∈ l, isMarkerChar c = false) (hm : isMarkerChar m = true) :
    splitMarks (l ++ m :: rest) acc = (acc.reverse ++ l, some m) :: splitMarks rest [] := by
  induction l generalizing acc with
  | nil => simp [splitMarks, hm]
  | cons c tl ih =>
    have hc : isMarkerChar c = false := hl c (List.mem_cons_self ..)
    simp only [List.cons_append, splitMarks, hc, Bool.false_eq_true, if_neg, ite_false,
      List.append_eq]
    rw [ih (c :: acc) (fun x hx => hl x (List.mem_cons_of_mem c hx))]
    simp

theorem dropWhile_eq_self {p : Char → Bool} {l : List Char} (h : ∀ c ∈ l, p c = false) :
    l.dropWhile p = l := by
  cases l with
  | nil => rfl
  | cons c tl => rw [List.dropWhile_cons, if_neg (by simp [h c (List.mem_cons_self ..)])]

theorem trimChars_eq_self (l : List Char) (h : ∀ c ∈ l, isSpaceChar c = false) :
    trimChars l = l := by
  rw [trimChars, dropWhile_eq_self h, dropWhile_eq_self (fun c hc => h c (by
    rw [List.mem_reverse] at hc; exact hc)), List.reverse_reverse]

theorem collapseMin_no_apos (l : List Char) (h : ∀ c ∈ l, c ≠ aposChar) :
    collapseMin l = l := by
  induction l with
  | nil => rfl
  | cons c tl ih =>
    cases tl with
    | nil => rfl
    | cons c2 tl2 =>
      rw [collapseMin, if_neg (by
        rintro ⟨h1, _⟩
        exact h c (List.mem_cons_self ..) h1)]
      rw [ih (fun x hx => h x (List.mem_cons_of_mem c hx))]

theorem collapseMin_single_apos (l1 l2 : List Char)
    (h1 : ∀ c ∈ l1, c ≠ aposChar) (h2 : ∀ c ∈ l2, c ≠ aposChar) :
    collapseMin (l1 ++ aposChar :: l2) = l1 ++ aposChar :: l2 := by
  induction l1 with
  | nil =>
    simp only [List.nil_append]
    cases l2 with
    | nil => rfl
    | cons c2 tl2 =>
      rw [collapseMin, if_neg (by
        rintro ⟨_, hc2⟩
        exact h2 c2 (List.mem_cons_self ..) hc2)]
      rw [collapseMin_no_apos _ h2]
  | cons c tl ih =>
    have hc : c ≠ aposChar := h1 c (List.mem_cons_self ..)
    have htl : ∀ x ∈ tl, x ≠ aposChar := fun x hx => h1 x (List.mem_cons_of_mem c hx)
    cases htl2 : tl ++ aposChar :: l2 with
    | nil => simp at htl2
    | cons c2 tl2 =>
      rw [List.cons_append, htl2, collapseMin, if_neg (by
        rintro ⟨h1c, _⟩
        exact hc h1c)]
      rw [← htl2, ih htl]



theorem digit_facts {c : Char} (h : isDigitChar c = true) :
    isMarkerChar c = false ∧ ¬c = ':' ∧ ¬c = aposChar ∧ isSpaceChar c = false ∧
      hemData c = none ∧ ¬c = '.' ∧ ¬c = '-' ∧ ¬c = '+' := by
  have hb : 48 ≤ c.toNat ∧ c.toNat ≤ 57 := by
    rw [isDigitChar, Bool.and_eq_true, decide_eq_true_eq, decide_eq_true_eq] at h
    exact h
  have hne : ∀ x : Char, c.toNat ≠ x.toNat → ¬c = x := by
    intro x hx hc
    exact hx (by rw [hc])
  have hd : ¬c = 'd' := hne _ (by rw [show Char.toNat 'd' = 100 from by decide]; omega)
  have hap : ¬c = aposChar := hne _ (by rw [show aposChar.toNat = 39 from by decide]; omega)
  have hq : ¬c = quotChar := hne _ (by rw [show quotChar.toNat = 34 from by decide]; omega)
  have hco : ¬c = ':' := hne _ (by rw [show Char.toNat ':' = 58 from by decide]; omega)
  have hsp : ¬c = ' ' := hne _ (by rw [show Char.toNat ' ' = 32 from by decide]; omega)
  have hta : ¬c = '\t' := hne _ (by rw [show Char.toNat '\t' = 9 from by decide]; omega)
  have hnl : ¬c = '\n' := hne _ (by rw [show Char.toNat '\n' = 10 from by decide]; omega)
  have hcr : ¬c = '\r' := hne _ (by rw [show Char.toNat '\r' = 13 from by decide]; omega)
  have hN : ¬c = 'N' := hne _ (by rw [show Char.toNat 'N' = 78 from by decide]; omega)
  have hS : ¬c = 'S' := hne _ (by rw [show Char.toNat 'S' = 83 from by decide]; omega)
  have hE : ¬c = 'E' := hne _ (by rw [show Char.toNat 'E' = 69 from by decide]; omega)
  have hW : ¬c = 'W' := hne _ (by rw [show Char.toNat 'W' = 87 from by decide]; omega)
  have hdot : ¬c = '.' := hne _ (by rw [show Char.toNat '.' = 46 from by decide]; omega)
  have hmin : ¬c = '-' := hne _ (by rw [show Char.toNat '-' = 45 from by decide]; omega)
  have hpl : ¬c = '+' := hne _ (by rw [show Char.toNat '+' = 43 from by decide]; omega)
  refine ⟨by simp [isMarkerChar, hd, hap, hq], hco, hap, by simp [isSpaceChar, hsp, hta, hnl, hcr],
    by rw [hemData, if_neg hN, if_neg hS, if_neg hE, if_neg hW], hdot, hmin, hpl⟩



theorem normChar_digit {c : Char} (h : isDigitChar c = true) : normChar c = c := by
  have hb : 48 ≤ c.toNat ∧ c.toNat ≤ 57 := by
    rw [isDigitChar, Bool.and_eq_true, decide_eq_true_eq, decide_eq_true_eq] at h
    exact h
  have hne : ∀ x : Char, x.toNat < 48 ∨ 57 < x.toNat → ¬c = x := by
    intro x hx hc
    rw [hc] at hb
    omega
  rw [normChar, if_neg, if_neg, if_neg]
  · rw [secondMarks]
    simp only [List.mem_cons, List.not_mem_nil, or_false]
    push_neg
    refine ⟨hne _ (by decide), hne _ (by decide), hne _ (by decide)⟩
  · rw [minuteMarks]
    simp only [List.mem_cons, List.not_mem_nil, or_false]
    push_neg
    refine ⟨hne _ (by decide), hne _ (by decide), hne _ (by decide), hne _ (by decide)⟩
  · rw [degreeMarks]
    simp only [List.mem_cons, List.not_mem_nil, or_false]
    push_neg
    refine ⟨hne _ (by decide), hne _ (by decide), hne _ (by decide), hne _ (by decide),
      hne _ (by decide), hne _ (by decide)⟩

theorem map_normChar_eq_self (l : List Char)
    (h : ∀ c ∈ l, isDigitChar c = true ∨ c = '.' ∨ c = 'd' ∨ c = aposChar ∨ c = quotChar) :
    l.map normChar = l := by
  induction l with
  | nil => rfl
  | cons c tl ih =>
    rw [List.map_cons, ih (fun x hx => h x (List.mem_cons_of_mem c hx))]
    rcases h c (List.mem_cons_self ..) with hc | hc | hc | hc | hc
    · rw [normChar_digit hc]
    · rw [hc]; rfl
    · rw [hc]; rfl
    · rw [hc]; rfl
    · rw [hc]; rfl

theorem collapseMin_of_count (l : List Char) (h : l.count aposChar ≤ 1) :
    collapseMin l = l := by
  induction l with
  | nil => rfl
  | cons c tl ih =>
    cases tl with
    | nil => rfl
    | cons c2 tl2 =>
      rw [collapseMin]
      rw [if_neg (by
        rintro ⟨rfl, rfl⟩
        rw [List.count_cons_self, List.count_cons_self] at h
        omega)]
      rw [ih (by
        rw [List.count_cons] at h
        omega)]

theorem stripHem_nohem {c : Char} {rest : List Char} (hh : hemData c = none)
    (hl : (c :: rest).getLast? = some quotChar) :
    stripHem (c :: rest) = Except.ok (false, flag.NONE, c :: rest) := by
  simp only [stripHem, hh, hl]
  rfl

theorem stripSign_minus (l : List Char) : stripSign ('-' :: l) = (true, l) := rfl

theorem stripSign_other {c : Char} (l : List Char) (h1 : ¬c = '-') (h2 : ¬c = '+') :
    stripSign (c :: l) = (false, c :: l) := by
  rw [stripSign, if_neg h1, if_neg h2]



theorem map_okE {α β : Type} (f : α → β) (a : α) :
    Except.map f (Except.ok a : Except String α) = Except.ok (f a) := rfl

theorem evalParts_three (dl ml sl : List Char) (dN mN : ℕ) (r : RawNum)
    (hpd : parseIntPart dl = Except.ok dN)
    (hpm : parseIntPart ml = Except.ok mN)
    (hps : parseNumber sl = Except.ok r)
    (hm60 : mN < 60) (hs60 : r.ip < 60) :
    evalParts [(dl, 0), (ml, 1), (sl, 2)] =
      Except.ok (RawNum.ofNat dN, RawNum.ofNat mN, r) := by
  rw [evalParts]
  simp only [List.isEmpty_cons, Bool.false_eq_true, if_false, hpd, map_okE, ok_bindE]
  rw [if_neg (by rintro ⟨h, _⟩; omega)]
  rw [evalParts]
  simp only [List.isEmpty_cons, Bool.false_eq_true, if_false, hpm, map_okE, ok_bindE]
  rw [if_neg (by
    rintro ⟨_, h⟩
    rw [show (RawNum.ofNat mN).ip = mN from rfl] at h
    omega)]
  rw [evalParts]
  simp only [List.isEmpty_nil, if_true, hps, ok_bindE]
  rw [if_neg (by rintro ⟨_, h⟩; omega)]
  rw [evalParts]
  simp only [ok_bindE]
  rfl



theorem mem_body_cases {c : Char} {dl ml il fl : List Char}
    (h : c ∈ dl ++ ('d' :: (ml ++ (aposChar :: (il ++ ('.' :: (fl ++ [quotChar]))))))) :
    c ∈ dl ∨ c = 'd' ∨ c ∈ ml ∨ c = aposChar ∨ c ∈ il ∨ c = '.' ∨ c ∈ fl ∨ c = quotChar := by
  simp only [List.mem_append, List.mem_cons, List.mem_singleton] at h
  tauto

theorem decodeBody_SECOND (dl ml il fl : List Char)
    (hd : ∀ c ∈ dl, isDigitChar c = true) (hdne : dl ≠ [])
    (hm : ∀ c ∈ ml, isDigitChar c = true) (hmne : ml ≠ [])
    (hi : ∀ c ∈ il, isDigitChar c = true) (hine : il ≠ [])
    (hf : ∀ c ∈ fl, isDigitChar c = true)
    (hm60 : natOfDigits ml < 60) (hi60 : natOfDigits il < 60) :
    decodeBody (dl ++ ('d' :: (ml ++ (aposChar :: (il ++ ('.' :: (fl ++ [quotChar]))))))) =
      Except.ok (RawNum.ofNat (natOfDigits dl), RawNum.ofNat (natOfDigits ml),
        ⟨natOfDigits il, natOfDigits fl, fl.length⟩) := by
  have hnocolon :
      ':' ∉ dl ++ ('d' :: (ml ++ (aposChar :: (il ++ ('.' :: (fl ++ [quotChar])))))) := by
    intro h
    rcases mem_body_cases h with h | h | h | h | h | h | h | h
    · exact absurd (hd _ h) (by decide)
    · exact absurd h (by decide)
    · exact absurd (hm _ h) (by decide)
    · exact absurd h (by decide)
    · exact absurd (hi _ h) (by decide)
    · exact absurd h (by decide)
    · exact absurd (hf _ h) (by decide)
    · exact absurd h (by decide)
  have hcon :
      (dl ++ ('d' :: (ml ++ (aposChar :: (il ++ ('.' :: (fl ++ [quotChar]))))))).contains ':'
        = false := by
    cases h :
      (dl ++ ('d' :: (ml ++ (aposChar :: (il ++ ('.' :: (fl ++ [quotChar]))))))).contains ':' with
    | false => rfl
    | true => exact absurd (List.elem_iff.mp h) hnocolon
  rw [decodeBody, hcon]
  rw [if_neg (by simp)]
  have hmf : ∀ c ∈ dl, isMarkerChar c = false := fun c hc => (digit_facts (hd c hc)).1
  have hmfm : ∀ c ∈ ml, isMarkerChar c = false := fun c hc => (digit_facts (hm c hc)).1
  have hmfs : ∀ c ∈ il ++ ('.' :: fl), isMarkerChar c = false := by
    intro c hc
    rw [List.mem_append, List.mem_cons] at hc
    rcases hc with hc | hc | hc
    · exact (digit_facts (hi c hc)).1
    · rw [hc]; decide
    · exact (digit_facts (hf c hc)).1
  rw [splitMarks_acc_append dl [] 'd' _ hmf (by decide)]
  rw [splitMarks_acc_append ml [] aposChar _ hmfm (by decide)]
  rw [show il ++ ('.' :: (fl ++ [quotChar])) = (il ++ ('.' :: fl)) ++ quotChar :: [] from
    by simp]
  rw [splitMarks_acc_append (il ++ ('.' :: fl)) [] quotChar [] hmfs (by decide)]
  simp only [List.reverse_nil, List.nil_append, splitMarks, List.isEmpty_nil, if_true]
  rw [show assignUnits
      [(dl, some 'd'), (ml, some aposChar), (il ++ ('.' :: fl), some quotChar)] 0 =
    Except.ok [(dl, 0), (ml, 1), (il ++ ('.' :: fl), 2)] from rfl]
  rw [show Except.bind (Except.ok [(dl, 0), (ml, 1), (il ++ ('.' :: fl), 2)]) evalParts =
    evalParts [(dl, 0), (ml, 1), (il ++ ('.' :: fl), 2)] from rfl]
  rw [evalParts_three dl ml (il ++ ('.' :: fl)) (natOfDigits dl) (natOfDigits ml)
    ⟨natOfDigits il, natOfDigits fl, fl.length⟩
    (parseIntPart_digits dl hdne hd) (parseIntPart_digits ml hmne hm)
    (parseNumber_fixed il fl hi hf hine) hm60 hi60]



theorem body_class {dl ml il fl : List Char}
    (hd : ∀ c ∈ dl, isDigitChar c = true) (hm : ∀ c ∈ ml, isDigitChar c = true)
    (hi : ∀ c ∈ il, isDigitChar c = true) (hf : ∀ c ∈ fl, isDigitChar c = true) :
    ∀ c ∈ dl ++ ('d' :: (ml ++ (aposChar :: (il ++ ('.' :: (fl ++ [quotChar])))))),
      isDigitChar c = true ∨ c = '.' ∨ c = 'd' ∨ c = aposChar ∨ c = quotChar := by
  intro c hc
  rcases mem_body_cases hc with h | h | h | h | h | h | h | h
  · exact Or.inl (hd _ h)
  · exact Or.inr (Or.inr (Or.inl h))
  · exact Or.inl (hm _ h)
  · exact Or.inr (Or.inr (Or.inr (Or.inl h)))
  · exact Or.inl (hi _ h)
  · exact Or.inr (Or.inl h)
  · exact Or.inl (hf _ h)
  · exact Or.inr (Or.inr (Or.inr (Or.inr h)))

theorem body_nospace {dl ml il fl : List Char}
    (hd : ∀ c ∈ dl, isDigitChar c = true) (hm : ∀ c ∈ ml, isDigitChar c = true)
    (hi : ∀ c ∈ il, isDigitChar c = true) (hf : ∀ c ∈ fl, isDigitChar c = true) :
    ∀ c ∈ dl ++ ('d' :: (ml ++ (aposChar :: (il ++ ('.' :: (fl ++ [quotChar])))))),
      isSpaceChar c = false := by
  intro c hc
  rcases body_class hd hm hi hf c hc with h | h | h | h | h
  · exact (digit_facts h).2.2.2.1
  · rw [h]; decide
  · rw [h]; decide
  · rw [h]; decide
  · rw [h]; decide

theorem body_count {dl ml il fl : List Char}
    (hd : ∀ c ∈ dl, isDigitChar c = true) (hm : ∀ c ∈ ml, isDigitChar c = true)
    (hi : ∀ c ∈ il, isDigitChar c = true) (hf : ∀ c ∈ fl, isDigitChar c = true) :
    (dl ++ ('d' :: (ml ++ (aposChar :: (il ++ ('.' :: (fl ++ [quotChar]))))))).count aposChar
      ≤ 1 := by
  have hc0 : dl.count aposChar = 0 :=
    List.count_eq_zero.mpr (fun h => absurd (hd _ h) (by decide))
  have hc1 : ml.count aposChar = 0 :=
    List.count_eq_zero.mpr (fun h => absurd (hm _ h) (by decide))
  have hc2 : il.count aposChar = 0 :=
    List.count_eq_zero.mpr (fun h => absurd (hi _ h) (by decide))
  have hc3 : fl.count aposChar = 0 :=
    List.count_eq_zero.mpr (fun h => absurd (hf _ h) (by decide))
  simp [List.count_append, List.count_cons, hc0, hc1, hc2, hc3]
  decide

theorem body_getLast {dl ml il fl : List Char} :
    (dl ++ ('d' :: (ml ++ (aposChar :: (il ++ ('.' :: (fl ++ [quotChar]))))))).getLast? =
      some quotChar := by
  rw [show dl ++ ('d' :: (ml ++ (aposChar :: (il ++ ('.' :: (fl ++ [quotChar])))))) =
    (dl ++ ('d' :: (ml ++ (aposChar :: (il ++ ('.' :: fl)))))) ++ [quotChar] from by simp]
  exact List.getLast?_concat _

theorem decodeCore_SECOND (neg : Bool) (dl ml il fl : List Char)
    (hd : ∀ c ∈ dl, isDigitChar c = true) (hdne : dl ≠ [])
    (hm : ∀ c ∈ ml, isDigitChar c = true) (hmne : ml ≠ [])
    (hi : ∀ c ∈ il, isDigitChar c = true) (hine : il ≠ [])
    (hf : ∀ c ∈ fl, isDigitChar c = true)
    (hm60 : natOfDigits ml < 60) (hi60 : natOfDigits il < 60) :
    decodeCore ((if neg then ['-'] else []) ++
        (dl ++ ('d' :: (ml ++ (aposChar :: (il ++ ('.' :: (fl ++ [quotChar])))))))) =
      Except.ok ⟨neg, RawNum.ofNat (natOfDigits dl), RawNum.ofNat (natOfDigits ml),
        ⟨natOfDigits il, natOfDigits fl, fl.length⟩, flag.NONE⟩ := by
  have hbody := decodeBody_SECOND dl ml il fl hd hdne hm hmne hi hine hf hm60 hi60
  have hnorm := map_normChar_eq_self _ (body_class hd hm hi hf)
  have hcoll := collapseMin_of_count _ (body_count hd hm hi hf)
  cases neg with
  | true =>
    rw [if_pos rfl, List.singleton_append]
    rw [decodeCore]
    rw [trimChars_eq_self _ (by
      intro c hc
      rcases List.mem_cons.mp hc with rfl | hc
      · decide
      · exact body_nospace hd hm hi hf c hc)]
    rw [stripHem_nohem (by decide) (by
      rw [show ('-' :: (dl ++ ('d' :: (ml ++ (aposChar :: (il ++ ('.' :: (fl ++ [quotChar])))))))) =
        ('-' :: (dl ++ ('d' :: (ml ++ (aposChar :: (il ++ ('.' :: fl))))))) ++ [quotChar] from
        by simp]
      exact List.getLast?_concat _)]
    rw [ok_bindE]
    dsimp only
    rw [stripSign_minus]
    dsimp only
    rw [hnorm, hcoll, hbody, ok_bindE]
    rfl
  | false =>
    rw [if_neg (by simp), List.nil_append]
    cases hdl : dl with
    | nil => exact absurd hdl hdne
    | cons c0 dl0 =>
      subst hdl
      have hc0 : isDigitChar c0 = true := hd c0 (List.mem_cons_self ..)
      rw [List.cons_append] at hbody hnorm hcoll ⊢
      rw [decodeCore]
      rw [trimChars_eq_self
        (c0 :: (dl0 ++ ('d' :: (ml ++ (aposChar :: (il ++ ('.' :: (fl ++ [quotChar]))))))))
        (fun c hc => body_nospace hd hm hi hf c hc)]
      have hlast :
          (c0 :: (dl0 ++ ('d' :: (ml ++ (aposChar :: (il ++ ('.' :: (fl ++ [quotChar])))))))).getLast?
            = some quotChar :=
        @body_getLast (c0 :: dl0) ml il fl
      rw [stripHem_nohem (digit_facts hc0).2.2.2.2.1 hlast]
      rw [ok_bindE]
      dsimp only
      rw [stripSign_other _ (digit_facts hc0).2.2.2.2.2.2.1 (digit_facts hc0).2.2.2.2.2.2.2]
      dsimp only
      rw [hnorm, hcoll, hbody, ok_bindE]
      rfl



theorem encodeParts_SECOND_none (n prec : ℕ) (hp : prec ≠ 0) :
    encodeParts n prec 1 component.SECOND none =
      padZeros 1 (natDigits (n / (3600 * 10 ^ prec))) ++
        ('d' :: (padZeros 2 (natDigits (n / (60 * 10 ^ prec) % 60)) ++
          (aposChar :: (padZeros 2 (natDigits (n % (60 * 10 ^ prec) / 10 ^ prec)) ++
            ('.' :: (padZeros prec (natDigits (n % (60 * 10 ^ prec) % 10 ^ prec)) ++
              [quotChar])))))) := by
  rw [encodeParts, fixedFmt, if_neg hp]
  simp [List.append_assoc]

theorem Encode_SECOND_none (x : ℚ) (prec : ℕ) :
    Encode x component.SECOND prec flag.NONE none =
      String.mk ((if decide (x < 0) then ['-'] else []) ++
        encodeParts (natRound (|x| * 3600 * 10 ^ prec)) prec 1 component.SECOND none) := by
  rw [Encode]
  simp only [unitScale, dWidth, Nat.cast_ofNat, show (flag.NONE = flag.AZIMUTH) = False from
    by simp, if_false, eq_self_iff_true, true_or, and_true, List.append_nil]
  · intro h
    exact absurd h (by simp)
  · intro h
    exact absurd h (by simp)



theorem natRound_spec (q : ℚ) (hq : 0 ≤ q) :
    |((natRound q : ℕ) : ℚ) - q| ≤ 1 / 2 := by
  have hr : 0 ≤ round q := by
    rw [round_eq]
    exact Int.floor_nonneg.mpr (by linarith)
  have hn : ((natRound q : ℕ) : ℤ) = round q := by
    rw [natRound, Int.toNat_of_nonneg hr]
  have : ((natRound q : ℕ) : ℚ) = ((round q : ℤ) : ℚ) := by exact_mod_cast hn
  rw [this, abs_sub_comm]
  exact abs_sub_round q

theorem roundtrip_value (n : ℕ) :
    ((n / (3600 * 10 ^ 6) : ℕ) : ℚ) +
      (((n / (60 * 10 ^ 6) % 60 : ℕ) : ℚ) +
        (((n % (60 * 10 ^ 6) / 10 ^ 6 : ℕ) : ℚ) +
          ((n % (60 * 10 ^ 6) % 10 ^ 6 : ℕ) : ℚ) / 10 ^ 6) / 60) / 60 =
      (n : ℚ) / 3600000000 := by
  have e1 : (3600 * 10 ^ 6 : ℕ) = 3600000000 := by norm_num
  have e2 : (60 * 10 ^ 6 : ℕ) = 60000000 := by norm_num
  have e3 : (10 ^ 6 : ℕ) = 1000000 := by norm_num
  rw [e1, e2, e3]
  have key : 3600000000 * (n / 3600000000) + 60000000 * (n / 60000000 % 60) +
      1000000 * (n % 60000000 / 1000000) + n % 60000000 % 1000000 = n := by omega
  have keyQ : (3600000000 : ℚ) * ((n / 3600000000 : ℕ) : ℚ) +
      60000000 * ((n / 60000000 % 60 : ℕ) : ℚ) +
      1000000 * ((n % 60000000 / 1000000 : ℕ) : ℚ) +
      ((n % 60000000 % 1000000 : ℕ) : ℚ) = (n : ℚ) := by
    exact_mod_cast congrArg (fun k : ℕ => (k : ℚ)) key
  have h6 : ((10 : ℚ) ^ 6) = 1000000 := by norm_num
  rw [h6]
  field_simp
  linarith [keyQ]



theorem data_mk (l : List Char) : (String.mk l).data = l := rfl

/-- C1: for every rational x in [-1000, 1000], decoding the string
produced by encoding x with trailing unit SECOND, precision 6 and
indicator NONE yields the value rounded to a millionth of a second,
which is within 1e-6 degrees of x, with indicator NONE. -/
theorem Decode_Encode_roundtrip (x : ℚ) (hlo : -1000 ≤ x) (hhi : x ≤ 1000) :
    ∃ v : ℚ, Decode (Encode x component.SECOND 6 flag.NONE none) = Except.ok (v, flag.NONE) ∧
      |v - x| ≤ 1 / 1000000 := by
  refine ⟨(if decide (x < 0) then (-1 : ℚ) else 1) *
    (((natRound (|x| * 3600 * 10 ^ (6 : ℕ)) : ℕ) : ℚ) / 3600000000), ?_, ?_⟩
  · rw [Decode, Encode_SECOND_none, encodeParts_SECOND_none _ _ (by norm_num)]
    rw [data_mk]
    rw [decodeCore_SECOND (decide (x < 0)) _ _ _ _
      (padZeros_all_digits _ _ (natDigits_all_digits _)) (padZeros_ne_nil _ _ (natDigits_ne_nil _))
      (padZeros_all_digits _ _ (natDigits_all_digits _)) (padZeros_ne_nil _ _ (natDigits_ne_nil _))
      (padZeros_all_digits _ _ (natDigits_all_digits _)) (padZeros_ne_nil _ _ (natDigits_ne_nil _))
      (padZeros_all_digits _ _ (natDigits_all_digits _))
      (by rw [natOfDigits_padZeros, natOfDigits_natDigits]; exact Nat.mod_lt _ (by norm_num))
      (by
        rw [natOfDigits_padZeros, natOfDigits_natDigits]
        exact Nat.div_lt_of_lt_mul (Nat.mod_lt _ (by norm_num)))]
    rw [map_okE]
    simp only [Except.ok.injEq, Prod.mk.injEq]
    refine ⟨?_, trivial⟩
    rw [DecodeDMS]
    simp only [RawNum.val, RawNum.ofNat, natOfDigits_padZeros, natOfDigits_natDigits]
    rw [padZeros_length (natDigits_length_le (by norm_num) (Nat.mod_lt _ (by norm_num)))]
    rw [show ((0 : ℕ) : ℚ) / 10 ^ (0 : ℕ) = 0 from by norm_num]
    rw [add_zero, add_zero]
    rw [roundtrip_value]
  · have hb := natRound_spec (|x| * 3600 * 10 ^ (6 : ℕ)) (by positivity)
    by_cases hx : x < 0
    · rw [if_pos (by simpa using hx)]
      have habs : |x| = -x := abs_of_neg hx
      have hdiff : (-1 : ℚ) * (((natRound (|x| * 3600 * 10 ^ (6 : ℕ)) : ℕ) : ℚ) / 3600000000) - x =
          -((((natRound (|x| * 3600 * 10 ^ (6 : ℕ)) : ℕ) : ℚ) - |x| * 3600 * 10 ^ (6 : ℕ)) /
            3600000000) := by
        rw [habs]
        ring
      rw [hdiff, abs_neg, abs_div, abs_of_pos (by norm_num : (0 : ℚ) < 3600000000)]
      calc |(((natRound (|x| * 3600 * 10 ^ (6 : ℕ)) : ℕ) : ℚ) - |x| * 3600 * 10 ^ (6 : ℕ))| /
          3600000000 ≤ (1 / 2) / 3600000000 := by gcongr
        _ ≤ 1 / 1000000 := by norm_num
    · rw [if_neg (by simpa using hx)]
      have habs : |x| = x := abs_of_nonneg (not_lt.mp hx)
      have hdiff : (1 : ℚ) * (((natRound (|x| * 3600 * 10 ^ (6 : ℕ)) : ℕ) : ℚ) / 3600000000) - x =
          ((((natRound (|x| * 3600 * 10 ^ (6 : ℕ)) : ℕ) : ℚ) - |x| * 3600 * 10 ^ (6 : ℕ)) /
            3600000000) := by
        rw [habs]
        ring
      rw [hdiff, abs_div, abs_of_pos (by norm_num : (0 : ℚ) < 3600000000)]
      calc |(((natRound (|x| * 3600 * 10 ^ (6 : ℕ)) : ℕ) : ℚ) - |x| * 3600 * 10 ^ (6 : ℕ))| /
          3600000000 ≤ (1 / 2) / 3600000000 := by gcongr
        _ ≤ 1 / 1000000 := by norm_num

/-- C1 witness: concrete application at x = 1/3. -/
theorem Decode_Encode_roundtrip_witness :
    ∃ v : ℚ, Decode (Encode (1 / 3 : ℚ) component.SECOND 6 flag.NONE none) =
      Except.ok (v, flag.NONE) ∧ |v - 1 / 3| ≤ 1 / 1000000 :=
  Decode_Encode_roundtrip (1 / 3) (by norm_num) (by norm_num)


end DMS

end GeographicLib
